import Mathlib

/-!
Verification model of the saabanto schema-driven API binding generator.

The Rust source (src/lib.rs) is a conceptual sketch: it declares the example
types (`UserId`, `Name`, `User`), the example API (`my_api` with routes
`POST /user/create/<id:UserId>` taking a `Name` body and returning `User`,
and `GET /user/get?sort=bool` returning `Vec<User>`), the handler signatures
(`handler_user_create`, `handler_users_get`) and the client surface, but the
machinery the macros `generate_server!` / `generate_client!` stand for
(type registry, schema model, binding table, dispatch engine) is not
implemented in the source.  Those parts are modelled here from the spec
(sections 3, 4.1-4.5, 7, 8) and the source's concrete API is embedded on top
of them.  Wire data ("bytes") is modelled as `List Nat`.
-/

namespace Saabanto

/-- Wire-level data: a sequence of bytes, modelled as a list of naturals. -/
abbrev Bytes := List Nat

/-- HTTP-style methods, the small fixed set the source uses. -/
inductive Method where
  | GET
  | POST
deriving DecidableEq

/-- Typed program values for the example types of src/lib.rs: `UserId(u32)`,
`Name(String)`, `bool`, `User`, and `Vec<User>`.  A user is an id paired
with a name (src/lib.rs lines 8-13). -/
inductive Value where
  | vUserId : Nat → Value
  | vName : Bytes → Value
  | vBool : Bool → Value
  | vUser : Nat → Bytes → Value
  | vUsers : List (Nat × Bytes) → Value
deriving DecidableEq

/-! ## Decimal coding of naturals on the wire -/

/-- Little-endian base-10 digits of a natural, fuel-driven so that it is
structurally recursive and evaluates by kernel reduction. -/
def natDigitsAux : Nat → Nat → List Nat
  | 0, _ => []
  | _ + 1, 0 => []
  | fuel + 1, n + 1 => ((n + 1) % 10) :: natDigitsAux fuel ((n + 1) / 10)

/-- Little-endian base-10 digits of a natural. -/
def natDigits (n : Nat) : List Nat := natDigitsAux n n

/-- Big-endian decimal digit values of a natural, `[0]` for zero. -/
def digitsBE (n : Nat) : List Nat :=
  if n = 0 then [0] else (natDigits n).reverse

/-- Decimal encoding of a natural as ASCII bytes. -/
def encNat (n : Nat) : Bytes := (digitsBE n).map (fun d => d + 48)

/-- Is a byte an ASCII decimal digit? -/
def isDigitByte (b : Nat) : Bool := 48 ≤ b && b ≤ 57

/-- Consume a maximal run of ASCII digits, accumulating their value. -/
def parseDigits : List Nat → Nat → Nat × List Nat
  | [], acc => (acc, [])
  | b :: bs, acc =>
    if isDigitByte b then parseDigits bs (acc * 10 + (b - 48)) else (acc, b :: bs)

/-- Parse a leading decimal number (at least one digit) off a byte string,
returning the value and the remaining bytes. -/
def parseNatLead : Bytes → Option (Nat × Bytes)
  | [] => none
  | b :: bs => if isDigitByte b then some (parseDigits (b :: bs) 0) else none

/-- Parse a byte string that must consist entirely of one decimal number. -/
def parseNatAll (bs : Bytes) : Option Nat :=
  match parseNatLead bs with
  | some (n, []) => some n
  | _ => none

/-- Does the byte string not begin with an ASCII digit? -/
def nondigitStart : Bytes → Bool
  | [] => true
  | b :: _ => !isDigitByte b

/-! ## The Type Registry (spec section 4.1), with the five registered types -/

/-- A registered type capability: decode, encode, and a human description.
Modelled from the spec: the Type Registry maps schema type names to
serialization/deserialization capabilities; the concrete codecs stand in for
the external JSON-style codec collaborator. -/
structure Codec where
  decode : Bytes → Option Value
  encode : Value → Bytes
  describe : String

/-- The Type Registry: an association of type names to codecs. -/
abbrev Registry := List (String × Codec)

/-- Resolve a type name in the registry (spec section 4.1). -/
def resolve (reg : Registry) (t : String) : Option Codec :=
  (reg.find? (fun p => p.1 == t)).map (fun p => p.2)

/-- Codec for `UserId`: a decimal number on the wire. -/
def userIdCodec : Codec where
  decode bs := (parseNatAll bs).map Value.vUserId
  encode v := match v with
    | .vUserId n => encNat n
    | _ => []
  describe := "a numeric user id"

/-- Codec for `Name`: the raw bytes of the string. -/
def nameCodec : Codec where
  decode bs := some (Value.vName bs)
  encode v := match v with
    | .vName bs => bs
    | _ => []
  describe := "a user name string"

/-- The bytes of the literal text true. -/
def trueBytes : Bytes := [116, 114, 117, 101]

/-- The bytes of the literal text false. -/
def falseBytes : Bytes := [102, 97, 108, 115, 101]

/-- Codec for `bool`: the literal texts true / false. -/
def boolCodec : Codec where
  decode bs :=
    if bs = trueBytes then some (Value.vBool true)
    else if bs = falseBytes then some (Value.vBool false)
    else none
  encode v := match v with
    | .vBool true => trueBytes
    | .vBool false => falseBytes
    | _ => []
  describe := "a boolean"

/-- Self-delimiting record encoding of one user: decimal id, a colon, the
decimal length of the name, a colon, then the name bytes. -/
def encUserRec (u : Nat × Bytes) : Bytes :=
  encNat u.1 ++ 58 :: (encNat u.2.length ++ 58 :: u.2)

/-- Parse one user record off the front of a byte string. -/
def parseUserLead (bs : Bytes) : Option ((Nat × Bytes) × Bytes) :=
  match parseNatLead bs with
  | none => none
  | some (id, r1) =>
    match r1 with
    | 58 :: r2 =>
      match parseNatLead r2 with
      | none => none
      | some (len, r3) =>
        match r3 with
        | 58 :: r4 =>
          if len ≤ r4.length then some ((id, r4.take len), r4.drop len) else none
        | _ => none
    | _ => none

/-- Codec for `User`: exactly one user record. -/
def userCodec : Codec where
  decode bs := match parseUserLead bs with
    | some (u, []) => some (Value.vUser u.1 u.2)
    | _ => none
  encode v := match v with
    | .vUser i n => encUserRec (i, n)
    | _ => []
  describe := "a user record"

/-- Concatenated encoding of a list of user records. -/
def encUsers : List (Nat × Bytes) → Bytes
  | [] => []
  | u :: us => encUserRec u ++ encUsers us

/-- Fuel-driven decoder for a concatenation of user records. -/
def decodeUsersAux : Nat → Bytes → Option (List (Nat × Bytes))
  | _, [] => some []
  | 0, _ :: _ => none
  | fuel + 1, b :: bs =>
    match parseUserLead (b :: bs) with
    | none => none
    | some (u, rest) => (decodeUsersAux fuel rest).map (fun us => u :: us)

/-- Codec for `Vec<User>`: a concatenation of user records. -/
def usersCodec : Codec where
  decode bs := (decodeUsersAux bs.length bs).map Value.vUsers
  encode v := match v with
    | .vUsers us => encUsers us
    | _ => []
  describe := "a list of user records"

/-- The process-wide Type Registry holding the five type names the source's
API references (src/lib.rs lines 8-13 and 34-48). -/
def registry : Registry :=
  [("UserId", userIdCodec), ("Name", nameCodec), ("bool", boolCodec),
   ("User", userCodec), ("Vec<User>", usersCodec)]

/-- The declared domain of each registered type name: which values a codec
is responsible for round-tripping. -/
def inDomain (t : String) (v : Value) : Bool :=
  match t, v with
  | "UserId", .vUserId _ => true
  | "Name", .vName _ => true
  | "bool", .vBool _ => true
  | "User", .vUser _ _ => true
  | "Vec<User>", .vUsers _ => true
  | _, _ => false

/-! ## Round-trip lemmas for the codecs -/

theorem natDigitsAux_eq_digits : ∀ fuel n, n ≤ fuel → natDigitsAux fuel n = Nat.digits 10 n := by
  intro fuel
  induction fuel with
  | zero =>
    intro n hn
    interval_cases n
    simp [natDigitsAux]
  | succ f ih =>
    intro n hn
    cases n with
    | zero => simp [natDigitsAux]
    | succ m =>
      rw [natDigitsAux, Nat.digits_def' (by norm_num) (Nat.succ_pos m)]
      congr 1
      exact ih _ (by
        have h1 : (m + 1) / 10 < m + 1 := Nat.div_lt_self (Nat.succ_pos m) (by norm_num)
        omega)

theorem natDigits_eq (n : Nat) : natDigits n = Nat.digits 10 n :=
  natDigitsAux_eq_digits n n (Nat.le_refl n)

theorem digitsBE_lt (n : Nat) : ∀ d ∈ digitsBE n, d < 10 := by
  intro d hd
  unfold digitsBE at hd
  split at hd
  · simp at hd
    omega
  · rw [natDigits_eq, List.mem_reverse] at hd
    exact Nat.digits_lt_base (by norm_num) hd

theorem digitsBE_ne_nil (n : Nat) : digitsBE n ≠ [] := by
  unfold digitsBE
  split
  · simp
  · rw [natDigits_eq]
    simp only [ne_eq, List.reverse_eq_nil_iff]
    exact Nat.digits_ne_nil_iff_ne_zero.mpr (by assumption)

theorem foldr_eq_ofDigits : ∀ l : List Nat,
    l.foldr (fun x y => y * 10 + x) 0 = Nat.ofDigits 10 l := by
  intro l
  induction l with
  | nil => simp [Nat.ofDigits]
  | cons d ds ih =>
    simp only [List.foldr_cons, ih, Nat.ofDigits_cons]
    ring

theorem digitsBE_foldl (n : Nat) :
    (digitsBE n).foldl (fun a d => a * 10 + d) 0 = n := by
  unfold digitsBE
  split
  · simp
    omega
  · rw [natDigits_eq, List.foldl_reverse]
    have h := foldr_eq_ofDigits (Nat.digits 10 n)
    simpa [h] using Nat.ofDigits_digits 10 n

theorem parseDigits_append : ∀ (ds : List Nat) (acc : Nat) (rest : Bytes),
    (∀ d ∈ ds, d < 10) → nondigitStart rest = true →
    parseDigits (ds.map (fun d => d + 48) ++ rest) acc =
      (ds.foldl (fun a d => a * 10 + d) acc, rest) := by
  intro ds
  induction ds with
  | nil =>
    intro acc rest _ hrest
    cases rest with
    | nil => rfl
    | cons b bs =>
      simp only [nondigitStart, Bool.not_eq_true'] at hrest
      simp [parseDigits, hrest]
  | cons d ds ih =>
    intro acc rest hds hrest
    have hd : d < 10 := hds d (List.mem_cons_self d ds)
    have hdig : isDigitByte (d + 48) = true := by
      simp [isDigitByte]
      omega
    simp only [List.map_cons, List.cons_append, parseDigits, hdig, if_true]
    have hsub : d + 48 - 48 = d := by omega
    rw [hsub]
    exact ih (acc * 10 + d) rest (fun x hx => hds x (List.mem_cons_of_mem d hx)) hrest

theorem parseNatLead_enc (n : Nat) (rest : Bytes) (hrest : nondigitStart rest = true) :
    parseNatLead (encNat n ++ rest) = some (n, rest) := by
  unfold encNat
  cases hbe : digitsBE n with
  | nil => exact absurd hbe (digitsBE_ne_nil n)
  | cons d ds =>
    have hlt : ∀ x ∈ digitsBE n, x < 10 := digitsBE_lt n
    rw [hbe] at hlt
    have hd : d < 10 := hlt d (List.mem_cons_self d ds)
    have hdig : isDigitByte (d + 48) = true := by
      simp [isDigitByte]
      omega
    simp only [List.map_cons, List.cons_append, parseNatLead, hdig, if_true]
    have := parseDigits_append (d :: ds) 0 rest hlt hrest
    simp only [List.map_cons, List.cons_append] at this
    rw [this]
    have hfold := digitsBE_foldl n
    rw [hbe] at hfold
    rw [hfold]

theorem parseNatAll_enc (n : Nat) : parseNatAll (encNat n) = some n := by
  unfold parseNatAll
  have h := parseNatLead_enc n [] rfl
  rw [List.append_nil] at h
  rw [h]

theorem encNat_ne_nil (n : Nat) : encNat n ≠ [] := by
  unfold encNat
  simp only [ne_eq, List.map_eq_nil_iff]
  exact digitsBE_ne_nil n

theorem take_len_append : ∀ (l1 l2 : List Nat), (l1 ++ l2).take l1.length = l1 := by
  intro l1
  induction l1 with
  | nil => intro l2; rfl
  | cons x xs ih => intro l2; simp [List.take, ih]

theorem drop_len_append : ∀ (l1 l2 : List Nat), (l1 ++ l2).drop l1.length = l2 := by
  intro l1
  induction l1 with
  | nil => intro l2; rfl
  | cons x xs ih => intro l2; simp [List.drop, ih]

theorem parseUserLead_enc (u : Nat × Bytes) (rest : Bytes) :
    parseUserLead (encUserRec u ++ rest) = some (u, rest) := by
  have hassoc : encUserRec u ++ rest =
      encNat u.1 ++ (58 :: (encNat u.2.length ++ 58 :: (u.2 ++ rest))) := by
    simp [encUserRec]
  rw [hassoc]
  unfold parseUserLead
  have h1 := parseNatLead_enc u.1 (58 :: (encNat u.2.length ++ 58 :: (u.2 ++ rest))) rfl
  rw [h1]
  simp only
  have h2 := parseNatLead_enc u.2.length (58 :: (u.2 ++ rest)) rfl
  rw [h2]
  simp only
  have hle : u.2.length ≤ (u.2 ++ rest).length := by
    rw [List.length_append]
    omega
  rw [if_pos hle, take_len_append, drop_len_append]

theorem encUserRec_ne_nil (u : Nat × Bytes) : encUserRec u ≠ [] := by
  unfold encUserRec
  intro h
  have := encNat_ne_nil u.1
  cases henc : encNat u.1 with
  | nil => exact this henc
  | cons b bs =>
    rw [henc] at h
    simp at h

theorem decodeUsersAux_enc : ∀ (us : List (Nat × Bytes)) (fuel : Nat),
    (encUsers us).length ≤ fuel → decodeUsersAux fuel (encUsers us) = some us := by
  intro us
  induction us with
  | nil => intro fuel _; cases fuel <;> rfl
  | cons u tl ih =>
    intro fuel hfuel
    have hne : encUsers (u :: tl) ≠ [] := by
      unfold encUsers
      intro h
      rcases List.append_eq_nil.mp h with ⟨h1, _⟩
      exact encUserRec_ne_nil u h1
    have hlen : 1 ≤ (encUsers (u :: tl)).length := by
      cases hh : encUsers (u :: tl) with
      | nil => exact absurd hh hne
      | cons b bs => simp
    cases fuel with
    | zero => omega
    | succ f =>
      cases hh : encUsers (u :: tl) with
      | nil => exact absurd hh hne
      | cons b bs =>
        rw [decodeUsersAux]
        rw [← hh]
        have henc : encUsers (u :: tl) = encUserRec u ++ encUsers tl := rfl
        rw [henc, parseUserLead_enc u (encUsers tl)]
        simp only
        have hrec : (encUsers tl).length ≤ f := by
          have h1 : 1 ≤ (encUserRec u).length := by
            cases hg : encUserRec u with
            | nil => exact absurd hg (encUserRec_ne_nil u)
            | cons c cs => simp
          have h2 : (encUsers (u :: tl)).length
              = (encUserRec u).length + (encUsers tl).length := by
            rw [henc, List.length_append]
          omega
        rw [ih f hrec]
        rfl

/-! ## Schema Model (spec sections 3 and 4.2) -/

/-- One path segment: a literal text, or a capture placeholder carrying a
capture name and a TypeName.  Modelled from the spec: the source only uses
segments through the sketched builder calls `path(..)` and `capture(..)`. -/
inductive Seg where
  | lit : Bytes → Seg
  | cap : String → String → Seg
deriving DecidableEq

/-- The ordered captures (name, TypeName) drawn from a path. -/
def capturesOf (segs : List Seg) : List (String × String) :=
  segs.filterMap (fun s => match s with
    | .cap n t => some (n, t)
    | .lit _ => none)

/-- The capture names a path declares, in order. -/
def captureNames (segs : List Seg) : List String := (capturesOf segs).map (fun p => p.1)

/-- One route alternative: method, declared query parameters (name,
TypeName), optional body (field name, TypeName), and return TypeName.
Captures are drawn from the enclosing path (spec section 3). -/
structure RouteAlternative where
  method : Method
  query : List (String × String)
  body : Option (String × String)
  returns : String
deriving DecidableEq

/-- A path in the schema with the route alternatives it owns. -/
structure RoutePath where
  segs : List Seg
  alts : List RouteAlternative
deriving DecidableEq

/-- The Schema Model root: an ordered collection of paths. -/
structure Api where
  paths : List RoutePath
deriving DecidableEq

/-- The identity of a route alternative: its (path, method) pair. -/
abbrev RouteId := List Seg × Method

/-- All (path segments, alternative) pairs of an Api, in declaration order. -/
def concatAll : List (List α) → List α
  | [] => []
  | l :: ls => l ++ concatAll ls

/-- All routes of an Api as (path segments, alternative) pairs. -/
def routesOf (api : Api) : List (List Seg × RouteAlternative) :=
  concatAll (api.paths.map (fun rp => rp.alts.map (fun a => (rp.segs, a))))

/-- All route identities of an Api. -/
def routeIds (api : Api) : List RouteId :=
  (routesOf api).map (fun r => (r.1, r.2.method))

/-- All TypeNames one alternative references: capture types, query types,
body type, and return type. -/
def typeNamesOfAlt (segs : List Seg) (alt : RouteAlternative) : List String :=
  (capturesOf segs).map (fun p => p.2) ++ alt.query.map (fun p => p.2) ++
    (match alt.body with
      | none => []
      | some nt => [nt.2]) ++ [alt.returns]

/-- All TypeNames an Api references anywhere. -/
def typeNames (api : Api) : List String :=
  concatAll ((routesOf api).map (fun r => typeNamesOfAlt r.1 r.2))

/-! ## Path matching with literal-over-capture precedence (spec section 4.2) -/

/-- Does one schema segment accept one request path segment?  A literal must
equal the text, a capture accepts anything. -/
def segMatches : Seg → Bytes → Bool
  | .lit l, s => l == s
  | .cap _ _, _ => true

/-- Does a schema path accept a request path (same length, segment-wise)? -/
def matchSegs : List Seg → List Bytes → Bool
  | [], [] => true
  | sg :: sgs, s :: ss => segMatches sg s && matchSegs sgs ss
  | _, _ => false

/-- Precedence between two schema paths: the first out-ranks the second when,
at the earliest position where their segment kinds differ, the first has a
literal and the second a capture (spec section 4.2). -/
def moreLiteral : List Seg → List Seg → Bool
  | .lit _ :: ps, .lit _ :: qs => moreLiteral ps qs
  | .lit _ :: _, .cap _ _ :: _ => true
  | .cap _ _ :: _, .lit _ :: _ => false
  | .cap _ _ :: ps, .cap _ _ :: qs => moreLiteral ps qs
  | _, _ => false

/-- Fold step for matching: keep the better of the current best and the next
path, considering only paths that accept the request. -/
def pickPath (req : List Bytes) (best : Option RoutePath) (rp : RoutePath) : Option RoutePath :=
  if matchSegs rp.segs req then
    match best with
    | none => some rp
    | some b => if moreLiteral rp.segs b.segs then some rp else some b
  else best

/-- Match a request path against the Schema Model, returning the accepting
path of highest literal-over-capture precedence. -/
def matchPath (api : Api) (req : List Bytes) : Option RoutePath :=
  api.paths.foldl (pickPath req) none

/-! ## Binding Table (spec section 4.3) -/

/-- The declared shape of a handler: its parameter TypeNames in order, and
its return TypeName. -/
structure HandlerSig where
  params : List String
  ret : String
deriving DecidableEq

/-- A handler reference: its declared shape and its function, which may
signal an application-level error (spec section 4.4 step 5). -/
structure Handler where
  sig : HandlerSig
  fn : List Value → Except Bytes Value

/-- The construction-time error taxonomy (spec section 7). -/
inductive ConstructionError where
  | unknownType : String → ConstructionError
  | duplicateType : String → ConstructionError
  | ambiguousRoute : List Seg → Method → ConstructionError
  | duplicateCapture : String → ConstructionError
  | missingHandler : RouteId → ConstructionError
  | shapeMismatch : RouteId → String → ConstructionError
  | duplicateBinding : RouteId → ConstructionError
deriving DecidableEq

/-- The fields a handler for an alternative must accept, in order: captures,
then query parameters, then the body field if present (spec section 3). -/
def expectedFields (segs : List Seg) (alt : RouteAlternative) : List (String × String) :=
  capturesOf segs ++ alt.query ++
    (match alt.body with
      | none => []
      | some nt => [nt])

/-- The shape a handler bound to an alternative must declare. -/
def expectedSig (segs : List Seg) (alt : RouteAlternative) : HandlerSig :=
  ⟨(expectedFields segs alt).map (fun p => p.2), alt.returns⟩

/-- Walk expected fields against declared parameter types and name the first
field that disagrees, if any. -/
def shapeCheck : List (String × String) → List String → Option String
  | [], [] => none
  | (n, t) :: fs, p :: ps => if t == p then shapeCheck fs ps else some n
  | (n, _) :: _, [] => some n
  | [], _ :: _ => some "extra-parameter"

/-- First element that occurs again later in the list, if any. -/
def findDup [DecidableEq α] : List α → Option α
  | [] => none
  | x :: xs => if x ∈ xs then some x else findDup xs

/-- Look up the handler supplied for a route identity. -/
def lookupHandler (hs : List (RouteId × Handler)) (rid : RouteId) : Option Handler :=
  (hs.find? (fun p => p.1 == rid)).map (fun p => p.2)

/-- Validate one route of the Api against the supplied handlers: a handler
must exist and its shape must equal the expected shape, parameters first,
then the return type (spec section 4.3). -/
def checkRoute (hs : List (RouteId × Handler)) (r : List Seg × RouteAlternative) :
    Option ConstructionError :=
  match lookupHandler hs (r.1, r.2.method) with
  | none => some (.missingHandler (r.1, r.2.method))
  | some h =>
    match shapeCheck (expectedFields r.1 r.2) h.sig.params with
    | some f => some (.shapeMismatch (r.1, r.2.method) f)
    | none =>
      if h.sig.ret == r.2.returns then none
      else some (.shapeMismatch (r.1, r.2.method) "return")

/-- First construction error over the routes, in declaration order. -/
def firstError (rs : List (List Seg × RouteAlternative))
    (hs : List (RouteId × Handler)) : Option ConstructionError :=
  match rs with
  | [] => none
  | r :: rest =>
    match checkRoute hs r with
    | some e => some e
    | none => firstError rest hs

/-- A validated Binding Table: the Api, the registry, and the handlers. -/
structure BindingTable where
  api : Api
  reg : Registry
  handlers : List (RouteId × Handler)

/-- Build the Binding Table, validating eagerly at construction: no route
identity bound twice, and for every route a handler of exactly the expected
shape (spec section 4.3).  Modelled from the spec: the source's
`generate_server!` macro (src/lib.rs lines 87-92) stands for this but has no
implementation. -/
def bind (api : Api) (reg : Registry) (hs : List (RouteId × Handler)) :
    Except ConstructionError BindingTable :=
  match findDup (hs.map (fun p => p.1)) with
  | some rid => .error (.duplicateBinding rid)
  | none =>
    match firstError (routesOf api) hs with
    | some e => .error e
    | none => .ok ⟨api, reg, hs⟩

/-- Spec-side success criterion for `bind`: every route has a supplied
handler whose declared shape equals the route's expected shape. -/
def handlersMatch (api : Api) (hs : List (RouteId × Handler)) : Bool :=
  (routesOf api).all (fun r =>
    match lookupHandler hs (r.1, r.2.method) with
    | none => false
    | some h => h.sig == expectedSig r.1 r.2)

/-! ## Schema finalization (spec section 4.2) -/

/-- First TypeName in the list that does not resolve in the registry. -/
def findUnknown (reg : Registry) : List String → Option String
  | [] => none
  | t :: ts => if (resolve reg t).isSome then findUnknown reg ts else some t

/-- First duplicated capture name over the paths, if any. -/
def findDupCapture : List RoutePath → Option String
  | [] => none
  | rp :: rest =>
    match findDup (captureNames rp.segs) with
    | some n => some n
    | none => findDupCapture rest

/-- Validate a built Api: no two alternatives share (path, method), every
referenced TypeName resolves, and no path declares a capture name twice
(spec section 4.2).  Modelled from the spec: the source sketches only the
builder calls in `my_api` (src/lib.rs lines 34-48). -/
def finalize (api : Api) (reg : Registry) : Except ConstructionError Api :=
  match findDup (routeIds api) with
  | some rid => .error (.ambiguousRoute rid.1 rid.2)
  | none =>
    match findUnknown reg (typeNames api) with
    | some t => .error (.unknownType t)
    | none =>
      match findDupCapture api.paths with
      | some n => .error (.duplicateCapture n)
      | none => .ok api

/-! ## Dispatch Engine (spec section 4.4) -/

/-- A transient inbound request descriptor. -/
structure RequestDescriptor where
  method : Method
  path : List Bytes
  query : List (String × Bytes)
  body : Option Bytes
deriving DecidableEq

/-- A transient outbound response descriptor (spec section 7 taxonomy). -/
inductive ResponseDescriptor where
  | ok : Bytes → ResponseDescriptor
  | notFound : ResponseDescriptor
  | methodNotAllowed : ResponseDescriptor
  | badRequest : String → ResponseDescriptor
  | handlerError : Bytes → ResponseDescriptor
deriving DecidableEq

/-- Select the alternative at a path whose method equals the request's. -/
def findAlt (alts : List RouteAlternative) (m : Method) : Option RouteAlternative :=
  alts.find? (fun a => a.method == m)

/-- Decode the capture values of a request path against a schema path, in
order, naming the failing capture on error. -/
def decodeCaptures (reg : Registry) : List Seg → List Bytes → Except String (List Value)
  | [], [] => .ok []
  | .lit _ :: sgs, _ :: ss => decodeCaptures reg sgs ss
  | .cap n t :: sgs, s :: ss =>
    match resolve reg t with
    | none => .error n
    | some c =>
      match c.decode s with
      | none => .error n
      | some v => (decodeCaptures reg sgs ss).map (fun vs => v :: vs)
  | _, _ => .error "path"

/-- Look up a query parameter value by name. -/
def lookupQuery (q : List (String × Bytes)) (n : String) : Option Bytes :=
  (q.find? (fun p => p.1 == n)).map (fun p => p.2)

/-- Decode the declared query parameters in order; an absent or undecodable
parameter fails naming that parameter (spec sections 4.4 step 3 and 9). -/
def decodeQuery (reg : Registry) (decls : List (String × String))
    (q : List (String × Bytes)) : Except String (List Value) :=
  match decls with
  | [] => .ok []
  | (n, t) :: ds =>
    match lookupQuery q n with
    | none => .error n
    | some raw =>
      match resolve reg t with
      | none => .error n
      | some c =>
        match c.decode raw with
        | none => .error n
        | some v => (decodeQuery reg ds q).map (fun vs => v :: vs)

/-- Decode the declared body, if any; a declared but absent or undecodable
body fails naming the body field. -/
def decodeBody (reg : Registry) : Option (String × String) → Option Bytes →
    Except String (List Value)
  | none, _ => .ok []
  | some nt, none => .error nt.1
  | some nt, some raw =>
    match resolve reg nt.2 with
    | none => .error nt.1
    | some c =>
      match c.decode raw with
      | none => .error nt.1
      | some v => .ok [v]

/-- Decode all inputs of a request for an alternative: captures, then query
parameters, then the body, concatenated in the shape order of spec
section 3. -/
def decodeInputs (reg : Registry) (segs : List Seg) (alt : RouteAlternative)
    (r : RequestDescriptor) : Except String (List Value) := do
  let cs ← decodeCaptures reg segs r.path
  let qs ← decodeQuery reg alt.query r.query
  let bs ← decodeBody reg alt.body r.body
  return cs ++ qs ++ bs

/-- The Dispatch Engine (spec section 4.4).  Modelled from the spec: the
source's `generate_server!` macro stands for the generated dispatch layer.
Match the path, select by method, decode inputs, invoke the bound handler,
encode its return value. -/
def dispatch (bt : BindingTable) (r : RequestDescriptor) : ResponseDescriptor :=
  match matchPath bt.api r.path with
  | none => .notFound
  | some rp =>
    match findAlt rp.alts r.method with
    | none => .methodNotAllowed
    | some alt =>
      match decodeInputs bt.reg rp.segs alt r with
      | .error f => .badRequest f
      | .ok vs =>
        match lookupHandler bt.handlers (rp.segs, alt.method) with
        | none => .handlerError []
        | some h =>
          match h.fn vs with
          | .error e => .handlerError e
          | .ok v =>
            match resolve bt.reg alt.returns with
            | none => .handlerError []
            | some c => .ok (c.encode v)

/-- Dispatch a sequence of independent requests against one table. -/
def dispatchMany (bt : BindingTable) (rs : List RequestDescriptor) :
    List ResponseDescriptor := rs.map (dispatch bt)

/-- The client-side callable shape generated for one route alternative:
captures, then query parameters, then the body if present, returning the
alternative's return type (spec section 4.5).  Modelled from the spec: the
source's `generate_client!` macro (src/lib.rs lines 97-126) stands for this. -/
def clientSig (segs : List Seg) (alt : RouteAlternative) : HandlerSig :=
  ⟨(capturesOf segs).map (fun p => p.2) ++ alt.query.map (fun p => p.2) ++
    (match alt.body with
      | none => []
      | some nt => [nt.2]), alt.returns⟩

/-! ## Supporting lemmas about the validation functions -/

theorem findDup_eq_none_iff [DecidableEq α] : ∀ l : List α, findDup l = none ↔ l.Nodup := by
  intro l
  induction l with
  | nil => simp [findDup]
  | cons x xs ih =>
    simp only [findDup]
    by_cases hx : x ∈ xs
    · simp [hx, List.nodup_cons]
    · simp [hx, ih, List.nodup_cons]

theorem findDup_some_split [DecidableEq α] : ∀ (l : List α) (x : α), findDup l = some x →
    ∃ l1 l2 l3, l = l1 ++ x :: (l2 ++ x :: l3) := by
  intro l
  induction l with
  | nil => intro x h; simp [findDup] at h
  | cons y ys ih =>
    intro x h
    simp only [findDup] at h
    by_cases hy : y ∈ ys
    · rw [if_pos hy] at h
      injection h with h1
      subst h1
      rcases List.append_of_mem hy with ⟨s, t, hst⟩
      exact ⟨[], s, t, by simp [hst]⟩
    · rw [if_neg hy] at h
      rcases ih x h with ⟨l1, l2, l3, hl⟩
      exact ⟨y :: l1, l2, l3, by simp [hl]⟩

theorem mem_concatAll : ∀ (ls : List (List α)) (x : α), x ∈ concatAll ls ↔ ∃ l ∈ ls, x ∈ l := by
  intro ls x
  induction ls with
  | nil => simp [concatAll]
  | cons l ls ih => simp [concatAll, List.mem_append, ih]

theorem shapeCheck_none_iff : ∀ (fs : List (String × String)) (ps : List String),
    shapeCheck fs ps = none ↔ ps = fs.map (fun p => p.2) := by
  intro fs
  induction fs with
  | nil => intro ps; cases ps <;> simp [shapeCheck]
  | cons f fs ih =>
    intro ps
    cases ps with
    | nil => cases f; simp [shapeCheck]
    | cons p ps =>
      cases f with
      | mk n t =>
        simp only [shapeCheck, List.map_cons]
        by_cases ht : t = p
        · subst ht
          simp [ih]
        · have hbeq : (t == p) = false := by simp [ht]
          rw [hbeq]
          simp only [Bool.false_eq_true, if_false]
          constructor
          · intro hcontra; cases hcontra
          · intro hcontra
            injection hcontra with h1 h2
            exact absurd h1.symm ht

/-- One field of the expected shape and the handler's declared parameter at
one position agree. -/
def agreesAt (fs : List (String × String)) (ps : List String) (j : Nat) : Prop :=
  ∃ nm t, fs[j]? = some (nm, t) ∧ ps[j]? = some t

/-- The name `f` marks the first position at which the handler's declared
parameters disagree with the expected fields: every earlier position agrees,
and at that position either the expected field is named `f` and the declared
parameter differs (or is missing), or the declared parameters outrun the
expected fields. -/
def firstParamMismatch (fs : List (String × String)) (ps : List String) (f : String) : Prop :=
  ∃ i, (∀ j, j < i → agreesAt fs ps j) ∧
    ((∃ t, fs[i]? = some (f, t) ∧ ps[i]? ≠ some t) ∨
     (fs[i]? = none ∧ ps[i]? ≠ none ∧ f = "extra-parameter"))

/-- The name `f` marks the first disagreement between a handler's declared
shape and the expected shape: either the first parameter disagreement, or —
with all parameters in exact agreement — the return types differ. -/
def firstMismatch (fs : List (String × String)) (ps : List String)
    (hret retDecl : String) (f : String) : Prop :=
  firstParamMismatch fs ps f ∨
    (ps = fs.map (fun p => p.2) ∧ hret ≠ retDecl ∧ f = "return")

theorem shapeCheck_some : ∀ (fs : List (String × String)) (ps : List String) (f : String),
    shapeCheck fs ps = some f → firstParamMismatch fs ps f := by
  intro fs
  induction fs with
  | nil =>
    intro ps f h
    cases ps with
    | nil => cases h
    | cons p ps =>
      simp only [shapeCheck] at h
      injection h with h1
      subst h1
      exact ⟨0, fun j hj => absurd hj (Nat.not_lt_zero j), Or.inr (by simp)⟩
  | cons fld fs ih =>
    intro ps f h
    cases ps with
    | nil =>
      cases fld with
      | mk n t =>
        simp only [shapeCheck] at h
        injection h with h1
        subst h1
        refine ⟨0, fun j hj => absurd hj (Nat.not_lt_zero j), Or.inl ⟨t, by simp, by simp⟩⟩
    | cons p ps =>
      cases fld with
      | mk n t =>
        simp only [shapeCheck] at h
        by_cases ht : t = p
        · subst ht
          rw [if_pos (by simp)] at h
          rcases ih ps f h with ⟨i, hagree, hdis⟩
          refine ⟨i + 1, ?_, ?_⟩
          · intro j hj
            cases j with
            | zero => exact ⟨n, t, by simp, by simp⟩
            | succ k =>
              rcases hagree k (by omega) with ⟨nm, t2, h1, h2⟩
              exact ⟨nm, t2, by simpa using h1, by simpa using h2⟩
          · rcases hdis with ⟨t2, h1, h2⟩ | ⟨h1, h2, h3⟩
            · exact Or.inl ⟨t2, by simpa using h1, by simpa using h2⟩
            · exact Or.inr ⟨by simpa using h1, by simpa using h2, h3⟩
        · rw [if_neg (by simp [ht])] at h
          injection h with h1
          subst h1
          refine ⟨0, fun j hj => absurd hj (Nat.not_lt_zero j), Or.inl ⟨t, by simp, ?_⟩⟩
          simp only [List.getElem?_cons_zero, ne_eq, Option.some.injEq]
          exact fun hc => ht hc.symm

theorem checkRoute_none_iff (hs : List (RouteId × Handler)) (r : List Seg × RouteAlternative) :
    checkRoute hs r = none ↔
      ∃ h, lookupHandler hs (r.1, r.2.method) = some h ∧ h.sig = expectedSig r.1 r.2 := by
  unfold checkRoute
  cases hl : lookupHandler hs (r.1, r.2.method) with
  | none => simp
  | some h =>
    simp only [Option.some.injEq]
    cases hsc : shapeCheck (expectedFields r.1 r.2) h.sig.params with
    | some f =>
      simp only
      constructor
      · intro hcontra; cases hcontra
      · rintro ⟨h2, hh2, hsig⟩
        subst hh2
        have : h.sig.params = (expectedFields r.1 r.2).map (fun p => p.2) := by
          rw [hsig]; rfl
        rw [(shapeCheck_none_iff _ _).mpr this] at hsc
        cases hsc
    | none =>
      simp only
      by_cases hret : h.sig.ret = r.2.returns
      · rw [if_pos (by simp [hret])]
        constructor
        · intro _
          refine ⟨h, rfl, ?_⟩
          have hparams : h.sig.params = (expectedFields r.1 r.2).map (fun p => p.2) :=
            (shapeCheck_none_iff _ _).mp hsc
          cases hsig : h.sig with
          | mk params ret =>
            rw [hsig] at hparams hret
            simp only [expectedSig, HandlerSig.mk.injEq]
            exact ⟨hparams, hret⟩
        · intro _; rfl
      · rw [if_neg (by simp [hret])]
        constructor
        · intro hcontra; cases hcontra
        · rintro ⟨h2, hh2, hsig⟩
          subst hh2
          exact absurd (by rw [hsig]; rfl) hret

theorem firstError_none_iff (rs : List (List Seg × RouteAlternative))
    (hs : List (RouteId × Handler)) :
    firstError rs hs = none ↔ ∀ r ∈ rs, checkRoute hs r = none := by
  induction rs with
  | nil => simp [firstError]
  | cons r rest ih =>
    simp only [firstError]
    cases hc : checkRoute hs r with
    | some e => simp [hc]
    | none => simp [hc, ih]

theorem firstError_some (rs : List (List Seg × RouteAlternative))
    (hs : List (RouteId × Handler)) (e : ConstructionError) :
    firstError rs hs = some e → ∃ r ∈ rs, checkRoute hs r = some e := by
  induction rs with
  | nil => intro h; cases h
  | cons r rest ih =>
    intro h
    simp only [firstError] at h
    cases hc : checkRoute hs r with
    | some e2 =>
      rw [hc] at h
      injection h with h1
      subst h1
      exact ⟨r, List.mem_cons_self r rest, hc⟩
    | none =>
      rw [hc] at h
      rcases ih h with ⟨r2, hr2, hcr2⟩
      exact ⟨r2, List.mem_cons_of_mem r hr2, hcr2⟩

theorem handlersMatch_iff (api : Api) (hs : List (RouteId × Handler)) :
    handlersMatch api hs = true ↔
      ∀ r ∈ routesOf api, ∃ h, lookupHandler hs (r.1, r.2.method) = some h ∧
        h.sig = expectedSig r.1 r.2 := by
  unfold handlersMatch
  rw [List.all_eq_true]
  constructor
  · intro hall r hr
    have := hall r hr
    cases hl : lookupHandler hs (r.1, r.2.method) with
    | none => rw [hl] at this; cases this
    | some h =>
      rw [hl] at this
      simp only [beq_iff_eq] at this
      exact ⟨h, rfl, this⟩
  · intro hall r hr
    rcases hall r hr with ⟨h, hl, hsig⟩
    rw [hl]
    simpa using hsig

theorem findUnknown_none_iff (reg : Registry) : ∀ ts : List String,
    findUnknown reg ts = none ↔ ∀ t ∈ ts, (resolve reg t).isSome = true := by
  intro ts
  induction ts with
  | nil => simp [findUnknown]
  | cons t ts ih =>
    simp only [findUnknown]
    by_cases ht : (resolve reg t).isSome = true
    · simp [ht, ih]
    · rw [if_neg ht]
      constructor
      · intro hc
        exact absurd hc (by simp)
      · intro hall
        exact absurd (hall t (List.mem_cons_self t ts)) ht

theorem findUnknown_some (reg : Registry) : ∀ (ts : List String) (t : String),
    findUnknown reg ts = some t → t ∈ ts ∧ resolve reg t = none := by
  intro ts
  induction ts with
  | nil => intro t h; cases h
  | cons u ts ih =>
    intro t h
    simp only [findUnknown] at h
    by_cases hu : (resolve reg u).isSome = true
    · rw [if_pos hu] at h
      rcases ih t h with ⟨hmem, hres⟩
      exact ⟨List.mem_cons_of_mem u hmem, hres⟩
    · rw [if_neg hu] at h
      injection h with h1
      subst h1
      have hnone : resolve reg u = none := by
        cases hres : resolve reg u with
        | none => rfl
        | some c => rw [hres] at hu; simp at hu
      exact ⟨List.mem_cons_self _ _, hnone⟩

theorem findDupCapture_none_iff : ∀ ps : List RoutePath,
    findDupCapture ps = none ↔ ∀ rp ∈ ps, (captureNames rp.segs).Nodup := by
  intro ps
  induction ps with
  | nil => simp [findDupCapture]
  | cons rp rest ih =>
    simp only [findDupCapture]
    cases hd : findDup (captureNames rp.segs) with
    | some n =>
      simp only
      constructor
      · intro hcontra; cases hcontra
      · intro hall
        have := (findDup_eq_none_iff (captureNames rp.segs)).mpr
          (hall rp (List.mem_cons_self rp rest))
        rw [this] at hd
        cases hd
    | none =>
      simp only [ih]
      constructor
      · intro hall rp2 hrp2
        rcases List.mem_cons.mp hrp2 with h1 | h1
        · subst h1
          exact (findDup_eq_none_iff _).mp hd
        · exact hall rp2 h1
      · intro hall rp2 hrp2
        exact hall rp2 (List.mem_cons_of_mem rp hrp2)

theorem findDupCapture_some : ∀ (ps : List RoutePath) (n : String),
    findDupCapture ps = some n →
      ∃ rp ∈ ps, findDup (captureNames rp.segs) = some n := by
  intro ps
  induction ps with
  | nil => intro n h; cases h
  | cons rp rest ih =>
    intro n h
    simp only [findDupCapture] at h
    cases hd : findDup (captureNames rp.segs) with
    | some m =>
      rw [hd] at h
      injection h with h1
      subst h1
      exact ⟨rp, List.mem_cons_self rp rest, hd⟩
    | none =>
      rw [hd] at h
      rcases ih n h with ⟨rp2, hrp2, hd2⟩
      exact ⟨rp2, List.mem_cons_of_mem rp hrp2, hd2⟩

/-! ## Supporting lemmas about path matching -/

theorem matchSegs_lit_self : ∀ req : List Bytes, matchSegs (req.map Seg.lit) req = true := by
  intro req
  induction req with
  | nil => rfl
  | cons r rs ih => simp [matchSegs, segMatches, ih]

theorem moreLiteral_match_lit_eq_false : ∀ (req : List Bytes) (q : List Seg),
    matchSegs q req = true → moreLiteral q (req.map Seg.lit) = false := by
  intro req
  induction req with
  | nil =>
    intro q hq
    cases q with
    | nil => rfl
    | cons s ss => cases hq
  | cons r rs ih =>
    intro q hq
    cases q with
    | nil => cases hq
    | cons s ss =>
      simp only [matchSegs, Bool.and_eq_true] at hq
      cases s with
      | lit l => simpa [moreLiteral] using ih ss hq.2
      | cap nm t => simp [moreLiteral]

theorem moreLiteral_lit_of_match : ∀ (req : List Bytes) (q : List Seg),
    matchSegs q req = true → q ≠ req.map Seg.lit →
    moreLiteral (req.map Seg.lit) q = true := by
  intro req
  induction req with
  | nil =>
    intro q hq hne
    cases q with
    | nil => exact absurd rfl hne
    | cons s ss => cases hq
  | cons r rs ih =>
    intro q hq hne
    cases q with
    | nil => cases hq
    | cons s ss =>
      simp only [matchSegs, Bool.and_eq_true] at hq
      cases s with
      | cap nm t => simp [moreLiteral]
      | lit l =>
        have hl : l = r := by simpa [segMatches] using hq.1
        subst hl
        have hss : ss ≠ rs.map Seg.lit := by
          intro hc
          exact hne (by simp [hc])
        simpa [moreLiteral] using ih ss hq.2 hss

/-- Invariant along the matching fold: any current best accepts the request. -/
def bestAccepts (req : List Bytes) (b : Option RoutePath) : Prop :=
  ∀ rq, b = some rq → matchSegs rq.segs req = true

/-- Invariant along the matching fold: the current best is the all-literal
path equal to the request. -/
def bestIsLit (req : List Bytes) (b : Option RoutePath) : Prop :=
  ∃ rq, b = some rq ∧ rq.segs = req.map Seg.lit

theorem pickPath_accepts (req : List Bytes) (b : Option RoutePath) (rp : RoutePath)
    (hb : bestAccepts req b) : bestAccepts req (pickPath req b rp) := by
  unfold pickPath
  by_cases hm : matchSegs rp.segs req = true
  · rw [if_pos hm]
    cases b with
    | none =>
      intro rq hrq
      injection hrq with h1
      subst h1
      exact hm
    | some b0 =>
      simp only
      by_cases hml : moreLiteral rp.segs b0.segs = true
      · rw [if_pos hml]
        intro rq hrq
        injection hrq with h1
        subst h1
        exact hm
      · rw [if_neg hml]
        exact hb
  · rw [if_neg hm]
    exact hb

theorem foldl_pickPath_accepts (req : List Bytes) : ∀ (l : List RoutePath) (b : Option RoutePath),
    bestAccepts req b → bestAccepts req (l.foldl (pickPath req) b) := by
  intro l
  induction l with
  | nil => intro b hb; exact hb
  | cons rp rest ih =>
    intro b hb
    exact ih (pickPath req b rp) (pickPath_accepts req b rp hb)

theorem pickPath_keeps_lit (req : List Bytes) (b : Option RoutePath) (rp : RoutePath)
    (hb : bestIsLit req b) : bestIsLit req (pickPath req b rp) := by
  rcases hb with ⟨rq, hb, hlit⟩
  subst hb
  unfold pickPath
  by_cases hm : matchSegs rp.segs req = true
  · rw [if_pos hm]
    simp only
    have : moreLiteral rp.segs rq.segs = false := by
      rw [hlit]
      exact moreLiteral_match_lit_eq_false req rp.segs hm
    rw [this]
    simp only [Bool.false_eq_true, if_false]
    exact ⟨rq, rfl, hlit⟩
  · rw [if_neg hm]
    exact ⟨rq, rfl, hlit⟩

theorem foldl_pickPath_keeps_lit (req : List Bytes) :
    ∀ (l : List RoutePath) (b : Option RoutePath),
    bestIsLit req b → bestIsLit req (l.foldl (pickPath req) b) := by
  intro l
  induction l with
  | nil => intro b hb; exact hb
  | cons rp rest ih =>
    intro b hb
    exact ih (pickPath req b rp) (pickPath_keeps_lit req b rp hb)

theorem pickPath_establishes_lit (req : List Bytes) (b : Option RoutePath) (rp : RoutePath)
    (hlit : rp.segs = req.map Seg.lit) (hb : bestAccepts req b) :
    bestIsLit req (pickPath req b rp) := by
  have hm : matchSegs rp.segs req = true := by
    rw [hlit]
    exact matchSegs_lit_self req
  unfold pickPath
  rw [if_pos hm]
  cases b with
  | none => exact ⟨rp, rfl, hlit⟩
  | some b0 =>
    simp only
    by_cases hml : moreLiteral rp.segs b0.segs = true
    · rw [if_pos hml]
      exact ⟨rp, rfl, hlit⟩
    · rw [if_neg hml]
      have hb0 : matchSegs b0.segs req = true := hb b0 rfl
      by_cases heq : b0.segs = req.map Seg.lit
      · exact ⟨b0, rfl, heq⟩
      · exfalso
        apply hml
        rw [hlit]
        exact moreLiteral_lit_of_match req b0.segs hb0 heq

theorem foldl_pickPath_none (req : List Bytes) :
    ∀ (l : List RoutePath) (b : Option RoutePath),
    (∀ rp ∈ l, matchSegs rp.segs req = false) → l.foldl (pickPath req) b = b := by
  intro l
  induction l with
  | nil => intro b _; rfl
  | cons rp rest ih =>
    intro b hall
    have hrp : matchSegs rp.segs req = false := hall rp (List.mem_cons_self rp rest)
    have hstep : pickPath req b rp = b := by
      unfold pickPath
      rw [hrp]
      simp
    rw [List.foldl_cons, hstep]
    exact ih b (fun rp2 h2 => hall rp2 (List.mem_cons_of_mem rp h2))

/-! ## The concrete API of src/lib.rs -/

/-- The bytes of the literal path segment user. -/
def userBytes : Bytes := [117, 115, 101, 114]

/-- The bytes of the literal path segment create. -/
def createBytes : Bytes := [99, 114, 101, 97, 116, 101]

/-- The bytes of the literal path segment get. -/
def getBytes : Bytes := [103, 101, 116]

/-- The bytes of the name alice used by the end-to-end scenario. -/
def aliceBytes : Bytes := [97, 108, 105, 99, 101]

/-- The path `/user/create/<id:UserId>` of `my_api` (src/lib.rs lines 34-48). -/
def userCreatePath : List Seg :=
  [.lit userBytes, .lit createBytes, .cap "id" "UserId"]

/-- The path `/user/get` of `my_api`. -/
def userGetPath : List Seg := [.lit userBytes, .lit getBytes]

/-- The POST alternative of `/user/create/<id>`: body field name of type
`Name`, returning `User` (src/lib.rs lines 38-41). -/
def createAlt : RouteAlternative := ⟨.POST, [], some ("name", "Name"), "User"⟩

/-- The GET alternative of `/user/get`: query parameter sort of type `bool`,
returning `Vec<User>` (src/lib.rs lines 42-44). -/
def getAlt : RouteAlternative := ⟨.GET, [("sort", "bool")], none, "Vec<User>"⟩

/-- The Api `my_api` of src/lib.rs lines 34-48. -/
def my_api : Api :=
  ⟨[⟨userCreatePath, [createAlt]⟩, ⟨userGetPath, [getAlt]⟩]⟩

/-- The handler for `POST /user/create/<id>` (src/lib.rs lines 61-63 declares
the signature `(UserId, Name) -> User`; its body is left as todo there).
Modelled from the spec: the end-to-end scenario of section 8 fixes the
behavior as `create(id, name) -> User{id, name}`. -/
def handler_user_create : Handler where
  sig := ⟨["UserId", "Name"], "User"⟩
  fn vs := match vs with
    | [.vUserId i, .vName n] => .ok (.vUser i n)
    | _ => .error []

/-- The handler for `GET /user/get` (src/lib.rs lines 65-67 declares the
signature `(bool) -> Vec<User>`; its body is left as todo there).  Modelled
from the spec: the spec fixes only the signature, so the model returns the
empty list. -/
def handler_users_get : Handler where
  sig := ⟨["bool"], "Vec<User>"⟩
  fn vs := match vs with
    | [.vBool _] => .ok (.vUsers [])
    | _ => .error []

/-- The handler mapping `server_alts!` supplies (src/lib.rs lines 87-92). -/
def myHandlers : List (RouteId × Handler) :=
  [((userCreatePath, .POST), handler_user_create),
   ((userGetPath, .GET), handler_users_get)]

/-- The Binding Table of the example server. -/
def myTable : BindingTable := ⟨my_api, registry, myHandlers⟩

/-! ## Helper lemmas for the claim theorems -/

theorem resolve_mem (reg : Registry) (t : String) (c : Codec)
    (h : resolve reg t = some c) : (t, c) ∈ reg := by
  unfold resolve at h
  cases hf : reg.find? (fun p => p.1 == t) with
  | none => rw [hf] at h; cases h
  | some p =>
    rw [hf] at h
    injection h with h1
    have hp := List.find?_some hf
    have hmem : p ∈ reg := List.mem_of_find?_eq_some hf
    have ht : p.1 = t := by simpa using hp
    cases p with
    | mk p1 p2 =>
      simp only at ht h1
      rw [← ht, ← h1]
      exact hmem

theorem userId_roundtrip (n : Nat) :
    userIdCodec.decode (userIdCodec.encode (.vUserId n)) = some (.vUserId n) := by
  simp [userIdCodec, parseNatAll_enc]

theorem name_roundtrip (bs : Bytes) :
    nameCodec.decode (nameCodec.encode (.vName bs)) = some (.vName bs) := rfl

theorem bool_roundtrip (b : Bool) :
    boolCodec.decode (boolCodec.encode (.vBool b)) = some (.vBool b) := by
  cases b <;> rfl

theorem user_roundtrip (i : Nat) (nm : Bytes) :
    userCodec.decode (userCodec.encode (.vUser i nm)) = some (.vUser i nm) := by
  have h := parseUserLead_enc (i, nm) []
  rw [List.append_nil] at h
  simp [userCodec, h]

theorem users_roundtrip (us : List (Nat × Bytes)) :
    usersCodec.decode (usersCodec.encode (.vUsers us)) = some (.vUsers us) := by
  simp only [usersCodec]
  rw [decodeUsersAux_enc us (encUsers us).length (Nat.le_refl _)]
  rfl

theorem checkRoute_missing (hs : List (RouteId × Handler)) (r : List Seg × RouteAlternative)
    (rid : RouteId) (h : checkRoute hs r = some (.missingHandler rid)) :
    rid = (r.1, r.2.method) ∧ lookupHandler hs (r.1, r.2.method) = none := by
  unfold checkRoute at h
  split at h
  · rename_i hl
    injection h with h1
    injection h1 with h2
    exact ⟨h2.symm, hl⟩
  · rename_i hd hl
    split at h
    · simp at h
    · split at h
      · cases h
      · simp at h

theorem checkRoute_mismatch (hs : List (RouteId × Handler)) (r : List Seg × RouteAlternative)
    (rid : RouteId) (f : String) (h : checkRoute hs r = some (.shapeMismatch rid f)) :
    rid = (r.1, r.2.method) ∧ ∃ hd, lookupHandler hs (r.1, r.2.method) = some hd ∧
      firstMismatch (expectedFields r.1 r.2) hd.sig.params hd.sig.ret r.2.returns f := by
  unfold checkRoute at h
  split at h
  · simp at h
  · rename_i hd2 hl
    split at h
    · rename_i f0 hsc
      injection h with h1
      injection h1 with h2 h3
      have hm := shapeCheck_some _ _ _ hsc
      rw [h3] at hm
      exact ⟨h2.symm, hd2, hl, Or.inl hm⟩
    · rename_i hsc
      split at h
      · cases h
      · rename_i hret
        injection h with h1
        injection h1 with h2 h3
        refine ⟨h2.symm, hd2, hl, Or.inr ⟨(shapeCheck_none_iff _ _).mp hsc, by simpa using hret, h3.symm⟩⟩

theorem clientSig_eq_expected (segs : List Seg) (alt : RouteAlternative) :
    clientSig segs alt = expectedSig segs alt := by
  simp only [clientSig, expectedSig, expectedFields, List.map_append]
  cases alt.body with
  | none => simp
  | some nt => simp

theorem bind_ok_elim (api : Api) (reg : Registry) (hs : List (RouteId × Handler))
    (t : BindingTable) (h : bind api reg hs = .ok t) :
    findDup (hs.map (fun p => p.1)) = none ∧ firstError (routesOf api) hs = none := by
  unfold bind at h
  cases hfd : findDup (hs.map fun p => p.1) with
  | some rid => rw [hfd] at h; cases h
  | none =>
    rw [hfd] at h
    cases hfe : firstError (routesOf api) hs with
    | some e => rw [hfe] at h; cases h
    | none => exact ⟨rfl, rfl⟩

/-- An Api referencing an unregistered TypeName, used to exercise the
`UnknownType` construction error. -/
def badTypeApi : Api :=
  ⟨[⟨userGetPath, [⟨.GET, [("sort", "nosuch")], none, "Vec<User>"⟩]⟩]⟩

/-- A handler list binding the same route identity twice, used to exercise
the `DuplicateBinding` construction error. -/
def dupHandlers : List (RouteId × Handler) :=
  myHandlers ++ [((userCreatePath, .POST), handler_user_create)]

/-! ## The claims -/

/-- Claim C1: for every Api and every handler mapping (a mapping, so route
identities are unique), `bind` succeeds iff every route alternative has a
supplied handler whose declared input/output shape structurally equals the
alternative's captures+query+body and returns; a missing handler yields
`MissingHandler` for an unbound route of the Api, and a shape disagreement
yields `ShapeMismatch` naming the first field that disagrees.  The
validation is performed by `bind` itself, at construction of the
`BindingTable`: `dispatch` only ever receives a table `bind` has already
validated. -/
theorem claim1_bind_shape_validation (api : Api) (reg : Registry)
    (hs : List (RouteId × Handler)) (hnodup : (hs.map (fun p => p.1)).Nodup) :
    ((bind api reg hs).isOk = true ↔ handlersMatch api hs = true) ∧
    (∀ rid, bind api reg hs = .error (.missingHandler rid) →
      rid ∈ routeIds api ∧ lookupHandler hs rid = none) ∧
    (∀ rid f, bind api reg hs = .error (.shapeMismatch rid f) →
      ∃ segs alt hd, rid = (segs, alt.method) ∧ (segs, alt) ∈ routesOf api ∧
        lookupHandler hs rid = some hd ∧
        firstMismatch (expectedFields segs alt) hd.sig.params hd.sig.ret alt.returns f) := by
  have hfd : findDup (hs.map (fun p => p.1)) = none := (findDup_eq_none_iff _).mpr hnodup
  refine ⟨?_, ?_, ?_⟩
  · unfold bind
    rw [hfd]
    cases hfe : firstError (routesOf api) hs with
    | none =>
      constructor
      · intro _
        rw [handlersMatch_iff]
        intro r hr
        exact (checkRoute_none_iff hs r).mp (((firstError_none_iff _ _).mp hfe) r hr)
      · intro _
        rfl
    | some e =>
      constructor
      · intro hc
        cases hc
      · intro hmatch
        have hnone : firstError (routesOf api) hs = none := by
          rw [firstError_none_iff]
          intro r hr
          exact (checkRoute_none_iff hs r).mpr ((handlersMatch_iff api hs).mp hmatch r hr)
        rw [hnone] at hfe
        cases hfe
  · intro rid herr
    unfold bind at herr
    rw [hfd] at herr
    cases hfe : firstError (routesOf api) hs with
    | none => rw [hfe] at herr; cases herr
    | some e =>
      rw [hfe] at herr
      injection herr with h1
      subst h1
      rcases firstError_some _ _ _ hfe with ⟨r, hr, hcr⟩
      rcases checkRoute_missing hs r rid hcr with ⟨hrid, hlook⟩
      constructor
      · rw [hrid]
        exact List.mem_map_of_mem _ hr
      · rw [hrid]
        exact hlook
  · intro rid f herr
    unfold bind at herr
    rw [hfd] at herr
    cases hfe : firstError (routesOf api) hs with
    | none => rw [hfe] at herr; cases herr
    | some e =>
      rw [hfe] at herr
      injection herr with h1
      subst h1
      rcases firstError_some _ _ _ hfe with ⟨r, hr, hcr⟩
      rcases checkRoute_mismatch hs r rid f hcr with ⟨hrid, hd, hlook, hmis⟩
      refine ⟨r.1, r.2, hd, hrid, hr, ?_, hmis⟩
      rw [hrid]
      exact hlook

/-- Witness for C1 at the concrete Api and handlers of src/lib.rs. -/
theorem claim1_witness :
    ((bind my_api registry myHandlers).isOk = true ↔
      handlersMatch my_api myHandlers = true) ∧
    (∀ rid, bind my_api registry myHandlers = .error (.missingHandler rid) →
      rid ∈ routeIds my_api ∧ lookupHandler myHandlers rid = none) ∧
    (∀ rid f, bind my_api registry myHandlers = .error (.shapeMismatch rid f) →
      ∃ segs alt hd, rid = (segs, alt.method) ∧ (segs, alt) ∈ routesOf my_api ∧
        lookupHandler myHandlers rid = some hd ∧
        firstMismatch (expectedFields segs alt) hd.sig.params hd.sig.ret alt.returns f) :=
  claim1_bind_shape_validation my_api registry myHandlers (by decide)

/-- Claim C2: whenever the Schema Model contains an all-literal path whose
segments equal the request path — however many competing capture paths it
also contains, and wherever in the registration order they sit — path
matching selects a path, and the selected path is that all-literal one,
never a path with a capture at any position. -/
theorem claim2_literal_beats_capture (api : Api) (req : List Bytes) (rp : RoutePath)
    (hmem : rp ∈ api.paths) (hlit : rp.segs = req.map Seg.lit) :
    (matchPath api req).map RoutePath.segs = some (req.map Seg.lit) := by
  rcases List.append_of_mem hmem with ⟨l1, l2, hsplit⟩
  unfold matchPath
  rw [hsplit, List.foldl_append, List.foldl_cons]
  have h1 : bestAccepts req (l1.foldl (pickPath req) none) :=
    foldl_pickPath_accepts req l1 none (fun rq hrq => by cases hrq)
  have h2 : bestIsLit req (pickPath req (l1.foldl (pickPath req) none) rp) :=
    pickPath_establishes_lit req _ rp hlit h1
  have h3 : bestIsLit req (l2.foldl (pickPath req)
      (pickPath req (l1.foldl (pickPath req) none) rp)) :=
    foldl_pickPath_keeps_lit req l2 _ h2
  rcases h3 with ⟨rq, heq, hsegs⟩
  rw [heq]
  simp [hsegs]

/-- Witness for C2: in `my_api`, a request for the literal path user/get
resolves to the all-literal path. -/
theorem claim2_witness :
    (matchPath my_api [userBytes, getBytes]).map RoutePath.segs =
      some ([userBytes, getBytes].map Seg.lit) :=
  claim2_literal_beats_capture my_api [userBytes, getBytes]
    ⟨userGetPath, [getAlt]⟩ (by decide) (by decide)

/-- Claim C3: whenever path and method select a route alternative but
decoding any capture, declared query parameter, or declared body fails,
`dispatch` answers `BadRequest` naming the failing field, and the response
is the same whatever handlers are bound — the handler is never consulted.
In particular `GET /user/get` without the required `sort` query parameter
yields `BadRequest` naming sort, for every handler list. -/
theorem claim3_bad_request_short_circuit :
    (∀ (api : Api) (reg : Registry) (hs hs2 : List (RouteId × Handler))
      (rp : RoutePath) (alt : RouteAlternative) (f : String) (r : RequestDescriptor),
      matchPath api r.path = some rp → findAlt rp.alts r.method = some alt →
      decodeInputs reg rp.segs alt r = .error f →
      dispatch ⟨api, reg, hs⟩ r = .badRequest f ∧
        dispatch ⟨api, reg, hs⟩ r = dispatch ⟨api, reg, hs2⟩ r) ∧
    (∀ hs : List (RouteId × Handler),
      dispatch ⟨my_api, registry, hs⟩ ⟨.GET, [userBytes, getBytes], [], none⟩ =
        .badRequest "sort") := by
  constructor
  · intro api reg hs hs2 rp alt f r hm hf hd
    have hone : ∀ hsx : List (RouteId × Handler),
        dispatch ⟨api, reg, hsx⟩ r = .badRequest f := by
      intro hsx
      unfold dispatch
      simp only [hm, hf, hd]
    exact ⟨hone hs, by rw [hone hs, hone hs2]⟩
  · intro hs
    rfl

/-- Witness for C3: a non-numeric capture for `<id:UserId>` on
`POST /user/create/<id>` yields `BadRequest` naming id, independently of the
bound handlers. -/
theorem claim3_witness :
    dispatch ⟨my_api, registry, myHandlers⟩
        ⟨.POST, [userBytes, createBytes, [120]], [], some aliceBytes⟩ =
      .badRequest "id" ∧
    dispatch ⟨my_api, registry, myHandlers⟩
        ⟨.POST, [userBytes, createBytes, [120]], [], some aliceBytes⟩ =
      dispatch ⟨my_api, registry, []⟩
        ⟨.POST, [userBytes, createBytes, [120]], [], some aliceBytes⟩ :=
  claim3_bad_request_short_circuit.1 my_api registry myHandlers []
    ⟨userCreatePath, [createAlt]⟩ createAlt "id"
    ⟨.POST, [userBytes, createBytes, [120]], [], some aliceBytes⟩ rfl rfl rfl

/-- Claim C4: if no schema path — literal or capture — accepts the request
path, `dispatch` answers `NotFound`; if the matched path has no alternative
with the request's method, `dispatch` answers `MethodNotAllowed`. -/
theorem claim4_not_found_method_not_allowed (api : Api) (reg : Registry)
    (hs : List (RouteId × Handler)) (r : RequestDescriptor) :
    ((∀ rp ∈ api.paths, matchSegs rp.segs r.path = false) →
      dispatch ⟨api, reg, hs⟩ r = .notFound) ∧
    (∀ rp, matchPath api r.path = some rp →
      (∀ alt ∈ rp.alts, alt.method ≠ r.method) →
      dispatch ⟨api, reg, hs⟩ r = .methodNotAllowed) := by
  constructor
  · intro hall
    have hm : matchPath api r.path = none :=
      foldl_pickPath_none r.path api.paths none hall
    unfold dispatch
    simp only [hm]
  · intro rp hm hall
    have hf : findAlt rp.alts r.method = none := by
      unfold findAlt
      rw [List.find?_eq_none]
      intro a ha
      simpa using hall a ha
    unfold dispatch
    simp only [hm, hf]

/-- Witness for C4: an unknown path answers `NotFound`; a GET on
`/user/create/7` (a POST-only route) answers `MethodNotAllowed`. -/
theorem claim4_witness :
    dispatch ⟨my_api, registry, myHandlers⟩ ⟨.GET, [[122]], [], none⟩ = .notFound ∧
    dispatch ⟨my_api, registry, myHandlers⟩
        ⟨.GET, [userBytes, createBytes, [55]], [], none⟩ = .methodNotAllowed :=
  ⟨(claim4_not_found_method_not_allowed my_api registry myHandlers
      ⟨.GET, [[122]], [], none⟩).1 (by decide),
   (claim4_not_found_method_not_allowed my_api registry myHandlers
      ⟨.GET, [userBytes, createBytes, [55]], [], none⟩).2
      ⟨userCreatePath, [createAlt]⟩ rfl (by decide)⟩

/-- Claim C5: for every TypeName registered in the Type Registry and every
value of that type's declared domain, decoding the encoding of the value
yields the value back. -/
theorem claim5_decode_encode_roundtrip (t : String) (c : Codec) (v : Value)
    (hres : resolve registry t = some c) (hdom : inDomain t v = true) :
    c.decode (c.encode v) = some v := by
  have hmem := resolve_mem registry t c hres
  simp only [registry, List.mem_cons, List.not_mem_nil, or_false, Prod.mk.injEq] at hmem
  rcases hmem with ⟨ht, hc⟩ | ⟨ht, hc⟩ | ⟨ht, hc⟩ | ⟨ht, hc⟩ | ⟨ht, hc⟩ <;>
    subst ht <;> subst hc
  · cases v
    case vUserId n => exact userId_roundtrip n
    all_goals exact Bool.noConfusion hdom
  · cases v
    case vName bs => exact name_roundtrip bs
    all_goals exact Bool.noConfusion hdom
  · cases v
    case vBool b => exact bool_roundtrip b
    all_goals exact Bool.noConfusion hdom
  · cases v
    case vUser i nm => exact user_roundtrip i nm
    all_goals exact Bool.noConfusion hdom
  · cases v
    case vUsers us => exact users_roundtrip us
    all_goals exact Bool.noConfusion hdom

/-- Witness for C5 at the registered TypeName UserId and the value 7. -/
theorem claim5_witness :
    resolve registry "UserId" = some userIdCodec ∧
    inDomain "UserId" (.vUserId 7) = true ∧
    userIdCodec.decode (userIdCodec.encode (.vUserId 7)) = some (.vUserId 7) :=
  ⟨rfl, rfl, claim5_decode_encode_roundtrip "UserId" userIdCodec (.vUserId 7) rfl rfl⟩

/-- Claim C6: binding two handlers to the same route identity fails
construction with `DuplicateBinding` for a route identity that indeed occurs
twice in the supplied list, and no `BindingTable` results at all — the
first binding is not partially registered, because `bind` returns an error
instead of any table. -/
theorem claim6_duplicate_binding (api : Api) (reg : Registry)
    (hs : List (RouteId × Handler)) (hdup : ¬ (hs.map (fun p => p.1)).Nodup) :
    (∃ rid l1 l2 l3, hs.map (fun p => p.1) = l1 ++ rid :: (l2 ++ rid :: l3) ∧
      bind api reg hs = .error (.duplicateBinding rid)) ∧
    ∀ t, bind api reg hs ≠ .ok t := by
  cases hfd : findDup (hs.map (fun p => p.1)) with
  | none => exact absurd ((findDup_eq_none_iff _).mp hfd) hdup
  | some rid =>
    rcases findDup_some_split _ rid hfd with ⟨l1, l2, l3, hsplit⟩
    have hbind : bind api reg hs = .error (.duplicateBinding rid) := by
      unfold bind
      rw [hfd]
    refine ⟨⟨rid, l1, l2, l3, hsplit, hbind⟩, ?_⟩
    intro t hc
    rw [hbind] at hc
    cases hc

/-- Witness for C6: binding `handler_user_create` twice to the create route
fails with `DuplicateBinding` and yields no table. -/
theorem claim6_witness :
    (∃ rid l1 l2 l3, dupHandlers.map (fun p => p.1) = l1 ++ rid :: (l2 ++ rid :: l3) ∧
      bind my_api registry dupHandlers = .error (.duplicateBinding rid)) ∧
    ∀ t, bind my_api registry dupHandlers ≠ .ok t :=
  claim6_duplicate_binding my_api registry dupHandlers (by decide)

/-- Claim C7: `finalize` succeeds exactly when no two alternatives share a
(path, method) pair, every referenced TypeName resolves, and no path
declares a capture name twice; a shared (path, method) yields
`AmbiguousRoute`, an unregistered TypeName yields `UnknownType`, a repeated
capture name yields `DuplicateCapture`; and a validated Api has every
TypeName resolved, so an unresolved TypeName is a construction-time error
and never survives to dispatch time. -/
theorem claim7_finalize_validation (api : Api) (reg : Registry) :
    (finalize api reg = .ok api ↔
      (routeIds api).Nodup ∧ (∀ t ∈ typeNames api, (resolve reg t).isSome = true) ∧
        (∀ rp ∈ api.paths, (captureNames rp.segs).Nodup)) ∧
    (¬ (routeIds api).Nodup →
      ∃ p m l1 l2 l3, routeIds api = l1 ++ (p, m) :: (l2 ++ (p, m) :: l3) ∧
        finalize api reg = .error (.ambiguousRoute p m)) ∧
    ((routeIds api).Nodup → (∃ t ∈ typeNames api, resolve reg t = none) →
      ∃ t, t ∈ typeNames api ∧ resolve reg t = none ∧
        finalize api reg = .error (.unknownType t)) ∧
    ((routeIds api).Nodup → (∀ t ∈ typeNames api, (resolve reg t).isSome = true) →
      (∃ rp ∈ api.paths, ¬ (captureNames rp.segs).Nodup) →
      ∃ n, finalize api reg = .error (.duplicateCapture n)) ∧
    (∀ a, finalize api reg = .ok a → a = api ∧
      ∀ t ∈ typeNames a, (resolve reg t).isSome = true) := by
  refine ⟨?_, ?_, ?_, ?_, ?_⟩
  · constructor
    · intro hok
      unfold finalize at hok
      cases hfd : findDup (routeIds api) with
      | some rid => rw [hfd] at hok; cases hok
      | none =>
        rw [hfd] at hok
        cases hfu : findUnknown reg (typeNames api) with
        | some t => rw [hfu] at hok; cases hok
        | none =>
          rw [hfu] at hok
          cases hfc : findDupCapture api.paths with
          | some n => rw [hfc] at hok; cases hok
          | none =>
            exact ⟨(findDup_eq_none_iff _).mp hfd, (findUnknown_none_iff _ _).mp hfu,
              (findDupCapture_none_iff _).mp hfc⟩
    · rintro ⟨h1, h2, h3⟩
      unfold finalize
      rw [(findDup_eq_none_iff _).mpr h1, (findUnknown_none_iff _ _).mpr h2,
        (findDupCapture_none_iff _).mpr h3]
  · intro hdup
    cases hfd : findDup (routeIds api) with
    | none => exact absurd ((findDup_eq_none_iff _).mp hfd) hdup
    | some rid =>
      rcases findDup_some_split _ rid hfd with ⟨l1, l2, l3, hsplit⟩
      refine ⟨rid.1, rid.2, l1, l2, l3, hsplit, ?_⟩
      unfold finalize
      rw [hfd]
  · intro hnd hex
    have hfd : findDup (routeIds api) = none := (findDup_eq_none_iff _).mpr hnd
    cases hfu : findUnknown reg (typeNames api) with
    | none =>
      rcases hex with ⟨t, ht, hres⟩
      have hcontra := (findUnknown_none_iff reg (typeNames api)).mp hfu t ht
      rw [hres] at hcontra
      cases hcontra
    | some t =>
      rcases findUnknown_some reg _ t hfu with ⟨hmem, hres⟩
      refine ⟨t, hmem, hres, ?_⟩
      unfold finalize
      rw [hfd, hfu]
  · intro hnd hall hex
    have hfd : findDup (routeIds api) = none := (findDup_eq_none_iff _).mpr hnd
    have hfu : findUnknown reg (typeNames api) = none :=
      (findUnknown_none_iff _ _).mpr hall
    cases hfc : findDupCapture api.paths with
    | none =>
      rcases hex with ⟨rp, hrp, hbad⟩
      exact absurd ((findDupCapture_none_iff _).mp hfc rp hrp) hbad
    | some n =>
      refine ⟨n, ?_⟩
      unfold finalize
      rw [hfd, hfu, hfc]
  · intro a hok
    unfold finalize at hok
    cases hfd : findDup (routeIds api) with
    | some rid => rw [hfd] at hok; cases hok
    | none =>
      rw [hfd] at hok
      cases hfu : findUnknown reg (typeNames api) with
      | some t => rw [hfu] at hok; cases hok
      | none =>
        rw [hfu] at hok
        cases hfc : findDupCapture api.paths with
        | some n => rw [hfc] at hok; cases hok
        | none =>
          rw [hfc] at hok
          injection hok with h1
          subst h1
          exact ⟨rfl, (findUnknown_none_iff _ _).mp hfu⟩

/-- Witness for C7: the concrete `my_api` instance of the success iff, and
an Api referencing the unregistered TypeName nosuch failing with
`UnknownType`. -/
theorem claim7_witness :
    (finalize my_api registry = .ok my_api ↔
      (routeIds my_api).Nodup ∧
        (∀ t ∈ typeNames my_api, (resolve registry t).isSome = true) ∧
        (∀ rp ∈ my_api.paths, (captureNames rp.segs).Nodup)) ∧
    (∃ t, t ∈ typeNames badTypeApi ∧ resolve registry t = none ∧
      finalize badTypeApi registry = .error (.unknownType t)) :=
  ⟨(claim7_finalize_validation my_api registry).1,
   (claim7_finalize_validation badTypeApi registry).2.2.1 (by decide)
     ⟨"nosuch", by decide, rfl⟩⟩

/-- Claim C8: `dispatch` is a pure function of the Binding Table and the
request: equal requests produce equal responses, and dispatching a request
after any sequence of earlier requests produces exactly the response of
dispatching it alone — no state is retained across requests (in this
embedding `dispatch` consumes only its two arguments and returns only a
response, so there is no other state it could mutate). -/
theorem claim8_dispatch_pure (bt : BindingTable) (pre : List RequestDescriptor)
    (r1 r2 : RequestDescriptor) (h : r1 = r2) :
    dispatchMany bt (pre ++ [r1]) = dispatchMany bt pre ++ [dispatch bt r1] ∧
    dispatch bt r1 = dispatch bt r2 := by
  subst h
  exact ⟨by simp [dispatchMany], rfl⟩

/-- Witness for C8 at the concrete table and requests. -/
theorem claim8_witness :
    dispatchMany myTable ([⟨.GET, [userBytes, getBytes], [("sort", trueBytes)], none⟩] ++
        [⟨.POST, [userBytes, createBytes, [55]], [], some aliceBytes⟩]) =
      dispatchMany myTable [⟨.GET, [userBytes, getBytes], [("sort", trueBytes)], none⟩] ++
        [dispatch myTable ⟨.POST, [userBytes, createBytes, [55]], [], some aliceBytes⟩] ∧
    dispatch myTable ⟨.POST, [userBytes, createBytes, [55]], [], some aliceBytes⟩ =
      dispatch myTable ⟨.POST, [userBytes, createBytes, [55]], [], some aliceBytes⟩ :=
  claim8_dispatch_pure myTable [⟨.GET, [userBytes, getBytes], [("sort", trueBytes)], none⟩]
    ⟨.POST, [userBytes, createBytes, [55]], [], some aliceBytes⟩
    ⟨.POST, [userBytes, createBytes, [55]], [], some aliceBytes⟩ rfl

/-- Claim C9: end-to-end on `POST /user/create/<id:UserId>` with body type
`Name` returning `User`: for the request with path user/create/7 and body
alice, the capture decodes to `UserId 7` and the body to `Name alice` in
that order, the bound handler maps them to `User 7 alice`, dispatch answers
success with that user encoded as the response body, and the response body
decodes back to `User 7 alice`. -/
theorem claim9_end_to_end :
    decodeInputs registry userCreatePath createAlt
        ⟨.POST, [userBytes, createBytes, [55]], [], some aliceBytes⟩ =
      .ok [.vUserId 7, .vName aliceBytes] ∧
    handler_user_create.fn [.vUserId 7, .vName aliceBytes] = .ok (.vUser 7 aliceBytes) ∧
    dispatch myTable ⟨.POST, [userBytes, createBytes, [55]], [], some aliceBytes⟩ =
      .ok (userCodec.encode (.vUser 7 aliceBytes)) ∧
    userCodec.decode (userCodec.encode (.vUser 7 aliceBytes)) =
      some (.vUser 7 aliceBytes) :=
  ⟨rfl, rfl, rfl, by rw [user_roundtrip]⟩

/-- Claim C10: the generated client callable of every route alternative has
exactly the parameter types, parameter order, and return type of the server
handler bound to that route: whenever `bind` succeeds, each route's client
signature equals its bound handler's declared signature; concretely,
`Client::user_create` takes (UserId, Name) returning User exactly as
`handler_user_create`, and `Client::users_get` takes (bool) returning
Vec<User> exactly as `handler_users_get`. -/
theorem claim10_client_matches_handler :
    (∀ (api : Api) (reg : Registry) (hs : List (RouteId × Handler)) (t : BindingTable),
      bind api reg hs = .ok t → ∀ r ∈ routesOf api,
        ∃ h, lookupHandler hs (r.1, r.2.method) = some h ∧ clientSig r.1 r.2 = h.sig) ∧
    clientSig userCreatePath createAlt = handler_user_create.sig ∧
    clientSig userGetPath getAlt = handler_users_get.sig := by
  refine ⟨?_, by decide, by decide⟩
  intro api reg hs t hbind r hr
  rcases bind_ok_elim api reg hs t hbind with ⟨_, hfe⟩
  have hcr := (firstError_none_iff _ _).mp hfe r hr
  rcases (checkRoute_none_iff hs r).mp hcr with ⟨h, hlook, hsig⟩
  exact ⟨h, hlook, by rw [hsig, clientSig_eq_expected]⟩

/-- Witness for C10 at the concrete bound table: the create route's client
signature equals its bound handler's signature. -/
theorem claim10_witness :
    ∃ h, lookupHandler myHandlers (userCreatePath, createAlt.method) = some h ∧
      clientSig userCreatePath createAlt = h.sig :=
  claim10_client_matches_handler.1 my_api registry myHandlers myTable rfl
    (userCreatePath, createAlt) (by decide)

end Saabanto
